import Mathlib

/-!
Shallow embedding of the whale-tracker backend (src/backend/index.js and its
helper modules) for checking the natural-language specification.

Modelling conventions:
* JavaScript numbers (transfer amounts, subscriber thresholds) are embedded
  as `Rat`; every comparison the code performs on them (`>=`, `>`) is robust
  at the rationals appearing in the claims.
* Timestamps are embedded as epoch milliseconds (`Int`); `new Date(s)` on a
  well-formed ISO string yields the instant, and `toCST` shifts it by six
  hours before formatting (formatting itself is presentation only and is not
  modelled; the server timezone offset is taken as 0/UTC).
* A JavaScript value that may be `undefined` is `Option _`; `none` is
  `undefined`.  Template-literal interpolation of `undefined` produces the
  string "undefined" (`jsTemplate`).
* Code that throws is embedded with `Option`: `none` is a raised exception.
* The suppression set `alertedTxs` is a `List String` with set semantics
  (membership); insertion is cons.
-/

namespace WhaleTracker

/-- Canonical normalized transaction shape produced by the polling functions
(`whaleCache` entries): `chain`, `amount`, `sender`, `receiver`, `timestamp`,
`txHash`.  `sender`/`receiver`/`txHash` may be `undefined` (absent upstream
fields propagate through `tx.sender?.address` etc.). -/
structure Transaction where
  chain : String
  amount : Rat
  sender : Option String
  receiver : Option String
  timestamp : Int
  txHash : Option String
deriving DecidableEq, Repr

/-- A subscriber row from the `subscriptions` table: `email`, `threshold`. -/
structure Subscriber where
  email : String
  threshold : Rat
deriving DecidableEq, Repr

/-- JavaScript truthiness of a possibly-undefined string: `undefined` and the
empty string are falsy, every other string is truthy. -/
def jsTruthyS : Option String → Bool
  | none => false
  | some s => decide (s ≠ "")

/-- Template-literal interpolation of a possibly-undefined string:
`` `${undefined}` `` renders as "undefined". -/
def jsTemplate : Option String → String
  | none => "undefined"
  | some s => s

/-- The JavaScript short-circuit chain `a || b || c` on possibly-undefined
strings: the first truthy operand, else the last operand as-is. -/
def firstTruthyS (a b c : Option String) : Option String :=
  if jsTruthyS a then a else if jsTruthyS b then b else c

/-- Suppression key of a transaction, from index.js line 92:
`` `${chain}:${tx.txHash || tx.signature || tx.hash}` ``.  Normalized
transactions carry only a `txHash` field; `tx.signature` and `tx.hash` are
absent (undefined) on them, hence the `none none` operands. -/
def txKey (chain : String) (tx : Transaction) : String :=
  chain ++ ":" ++ jsTemplate (firstTruthyS tx.txHash none none)

/-- `getSubscribers` (index.js lines 77-84): on a Supabase error it logs and
returns the empty list; on success it returns the rows (`data || []`). -/
def getSubscribers : Except String (List Subscriber) → List Subscriber
  | .error _ => []
  | .ok data => data

/-- Observable outcome of one `processAndAlert` call: the delivery attempts
made (recipient email, suppression key), the subset that succeeded, and the
suppression set afterwards. -/
structure DispatchOutcome where
  attempts : List (String × String)
  delivered : List (String × String)
  alerted : List String
deriving DecidableEq, Repr

/-- Body of the per-transaction step of `processAndAlert` (index.js lines
90-111): skip entirely if the key is suppressed; otherwise attempt delivery
to every subscriber with `Number(tx.amount) >= Number(sub.threshold)` (a
per-subscriber failure is caught and logged, recorded here via `sendOk`),
then insert the key. -/
def processTx (subs : List Subscriber) (sendOk : Subscriber → Transaction → Bool)
    (chain : String) (alerted : List String) (tx : Transaction) :
    List (String × String) × List (String × String) × List String :=
  let key := txKey chain tx
  if key ∈ alerted then ([], [], alerted)
  else
    let matched := subs.filter fun s => decide (s.threshold ≤ tx.amount)
    (matched.map (fun s => (s.email, key)),
     (matched.filter fun s => sendOk s tx).map (fun s => (s.email, key)),
     key :: alerted)

/-- The `for (const tx of txs)` loop of `processAndAlert`, threading the
suppression set and accumulating attempts in order. -/
def processLoop (subs : List Subscriber) (sendOk : Subscriber → Transaction → Bool)
    (chain : String) : List Transaction → List String → DispatchOutcome
  | [], alerted => ⟨[], [], alerted⟩
  | tx :: txs, alerted =>
    let step := processTx subs sendOk chain alerted tx
    let rest := processLoop subs sendOk chain txs step.2.2
    ⟨step.1 ++ rest.attempts, step.2.1 ++ rest.delivered, rest.alerted⟩

/-- `processAndAlert` (index.js lines 87-113): early return on an empty
batch (before any subscriber fetch), else fetch subscribers once and run the
per-transaction loop.  `storeResult` is the outcome of the Supabase read;
`sendOk` tells whether a given send would succeed (the code catches
failures, so control flow never branches on it). -/
def processAndAlert (storeResult : Except String (List Subscriber))
    (sendOk : Subscriber → Transaction → Bool) (chain : String)
    (alerted : List String) (txs : List Transaction) : DispatchOutcome :=
  if txs.isEmpty then ⟨[], [], alerted⟩
  else processLoop (getSubscribers storeResult) sendOk chain txs alerted

/-- Bulk reset of the suppression set, performed every six hours:
`setInterval(() => alertedTxs.clear(), 6 * 60 * 60 * 1000)` (index.js
line 64).  The timer itself is real time and is not modelled; `clear` is the
state transition it performs. -/
def clearAlerted : List String := []

/-- Raw transfer record from the Bitquery response for ETH/BSC/Solana:
`block.timestamp.time` (nested, may be absent), `transaction.hash` (or
`transaction.signature` for Solana), `sender.address`, `receiver.address`
(may be absent) and `amount`. -/
structure RawTransfer where
  blockTime : Option Int
  hash : Option String
  sender : Option String
  receiver : Option String
  amount : Rat
deriving DecidableEq, Repr

/-- Raw Bitcoin output record: `block.timestamp.time`, `transaction.hash`
and `value`. -/
structure RawOutput where
  blockTime : Option Int
  hash : Option String
  value : Rat
deriving DecidableEq, Repr

/-- `toCST` (index.js lines 67-74): converts an ISO instant to a CST-shifted
presentation string.  Instants are modelled as epoch milliseconds; the
six-hour shift is kept because it is the only part of the formatting that
survives into comparisons.  On `undefined` input, `new Date(undefined)` is an
Invalid Date and `.toISOString()` throws a RangeError — modelled as `none`. -/
def toCST : Option Int → Option Int
  | none => none
  | some t => some (t - 6 * 60 * 60 * 1000)

/-- JavaScript `toUpperCase()` on a string (ASCII, sufficient for the chain
names the scheduler passes). -/
def jsToUpper (s : String) : String := ⟨s.data.map Char.toUpper⟩

/-- Normalizer in `fetchEthOrBsc` (index.js lines 142-149): builds a
`Transaction` from a raw transfer.  `none` means the mapping callback threw
(only `toCST` can throw, on an absent nested timestamp). -/
def normalizeEthOrBsc (network : String) (tx : RawTransfer) : Option Transaction :=
  match toCST tx.blockTime with
  | none => none
  | some ts => some ⟨jsToUpper network, tx.amount, tx.sender, tx.receiver, ts, tx.hash⟩

/-- Normalizer in `fetchSolana` (index.js lines 180-187): chain is the
literal "SOL" and the native id is `transaction.signature` (the `hash` field
of the raw record embeds whichever identifier the chain uses). -/
def normalizeSolana (tx : RawTransfer) : Option Transaction :=
  match toCST tx.blockTime with
  | none => none
  | some ts => some ⟨"SOL", tx.amount, tx.sender, tx.receiver, ts, tx.hash⟩

/-- Normalizer in `fetchBitcoin` (index.js lines 211-218): chain "BTC",
sender and receiver are the literal empty string, amount is the output
value. -/
def normalizeBitcoin (o : RawOutput) : Option Transaction :=
  match toCST o.blockTime with
  | none => none
  | some ts => some ⟨"BTC", o.value, some "", some "", ts, o.hash⟩

/-- The `txs.filter` dedup idiom with an in-memory `seen` set (index.js
lines 135-141, 173-179, 243-249): keep an element only if its key has not
been seen, inserting the key as it goes. -/
def dedupOn {α β : Type} [DecidableEq β] (key : α → β) :
    List α → List β → List α
  | [], _ => []
  | x :: xs, seen =>
    if key x ∈ seen then dedupOn key xs seen
    else x :: dedupOn key xs (key x :: seen)

/-- The combined filter of `fetchBitcoin` (index.js line 210):
`outputs.filter(o => o.value > minAmount && !seen.has(h) && seen.add(h))` —
value filter and hash dedup in one pass, the `seen` set updated only for
outputs that pass the value filter (short-circuit). -/
def filterAndDedupBtc (minAmount : Rat) :
    List RawOutput → List (Option String) → List RawOutput
  | [], _ => []
  | o :: os, seen =>
    if minAmount < o.value then
      if o.hash ∈ seen then filterAndDedupBtc minAmount os seen
      else o :: filterAndDedupBtc minAmount os (o.hash :: seen)
    else filterAndDedupBtc minAmount os seen

/-- `deduped.map(normalize)` where the callback may throw: the whole map —
and hence the cache assignment it feeds — throws if any element does. -/
def normalizeAll {α : Type} (f : α → Option Transaction) :
    List α → Option (List Transaction)
  | [] => some []
  | x :: xs =>
    match f x, normalizeAll f xs with
    | some t, some ts => some (t :: ts)
    | _, _ => none

/-- `whaleCache`: a JavaScript object mapping chain key to the latest batch,
embedded as an insertion-ordered association list (mirrors `Object.values`
enumeration order; assignment to a fresh key appends). -/
abbrev Cache : Type := List (String × List Transaction)

/-- Read of a cache slot (`whaleCache[k]`); a missing slot reads as the
empty batch. -/
def getSlot : Cache → String → List Transaction
  | [], _ => []
  | (k', v) :: rest, k => if k' = k then v else getSlot rest k

/-- Assignment `whaleCache[k] = v`: overwrite in place when the key exists,
append a fresh slot otherwise. -/
def setSlot : Cache → String → List Transaction → Cache
  | [], k, v => [(k, v)]
  | (k', v') :: rest, k, v =>
    if k' = k then (k, v) :: rest else (k', v') :: setSlot rest k v

/-- `Object.values(whaleCache).flat()` (index.js line 238). -/
def cacheValues (c : Cache) : List Transaction :=
  (c.map Prod.snd).flatten

/-- Outcome of the HTTP fetch plus `res.json()` in a polling function:
`fetchError` is a rejected fetch (network failure), `parseError` a non-JSON
body rejected by `res.json()`, and `ok` carries the parsed value —
`data.data?.<chain>?.transfers` (or `outputs`), `none` when the JSON lacks
that path (the code then falls back to `|| []`). -/
inductive FetchOutcome (α : Type) where
  | fetchError : String → FetchOutcome α
  | parseError : String → FetchOutcome α
  | ok : Option α → FetchOutcome α
deriving DecidableEq, Repr

/-- Mutable state a poll cycle touches: the whale cache and the suppression
set. -/
structure PollerState where
  cache : Cache
  alerted : List String
deriving DecidableEq, Repr

/-- One cycle of `fetchEthOrBsc` (index.js lines 116-153).  An error from
`fetch`/`res.json()` rejects the async function before any mutation; a
throw inside the normalizing `map` likewise aborts before the cache
assignment.  On success the chain's slot (keyed `network.toUpperCase()`) is
replaced with the deduplicated normalized batch and the batch is handed to
`processAndAlert`.  Returns the new state and the delivery attempts made. -/
def fetchEthOrBscCycle (network : String)
    (storeResult : Except String (List Subscriber))
    (sendOk : Subscriber → Transaction → Bool)
    (resp : FetchOutcome (List RawTransfer)) (st : PollerState) :
    PollerState × List (String × String) :=
  match resp with
  | .fetchError _ => (st, [])
  | .parseError _ => (st, [])
  | .ok body =>
    let txs := body.getD []
    let deduped := dedupOn RawTransfer.hash txs []
    match normalizeAll (normalizeEthOrBsc network) deduped with
    | none => (st, [])
    | some batch =>
      let cache := setSlot st.cache (jsToUpper network) batch
      let out := processAndAlert storeResult sendOk (jsToUpper network) st.alerted batch
      (⟨cache, out.alerted⟩, out.attempts)

/-- One cycle of `fetchSolana` (index.js lines 155-191): dedup by
`transaction.signature`, slot "SOL". -/
def fetchSolanaCycle (storeResult : Except String (List Subscriber))
    (sendOk : Subscriber → Transaction → Bool)
    (resp : FetchOutcome (List RawTransfer)) (st : PollerState) :
    PollerState × List (String × String) :=
  match resp with
  | .fetchError _ => (st, [])
  | .parseError _ => (st, [])
  | .ok body =>
    let txs := body.getD []
    let deduped := dedupOn RawTransfer.hash txs []
    match normalizeAll normalizeSolana deduped with
    | none => (st, [])
    | some batch =>
      let cache := setSlot st.cache "SOL" batch
      let out := processAndAlert storeResult sendOk "SOL" st.alerted batch
      (⟨cache, out.alerted⟩, out.attempts)

/-- One cycle of `fetchBitcoin` (index.js lines 193-222): client-side value
filter (`minAmount = 100`) combined with hash dedup, slot "BTC". -/
def fetchBitcoinCycle (storeResult : Except String (List Subscriber))
    (sendOk : Subscriber → Transaction → Bool)
    (resp : FetchOutcome (List RawOutput)) (st : PollerState) :
    PollerState × List (String × String) :=
  match resp with
  | .fetchError _ => (st, [])
  | .parseError _ => (st, [])
  | .ok body =>
    let outputs := body.getD []
    let filtered := filterAndDedupBtc 100 outputs []
    match normalizeAll normalizeBitcoin filtered with
    | none => (st, [])
    | some batch =>
      let cache := setSlot st.cache "BTC" batch
      let out := processAndAlert storeResult sendOk "BTC" st.alerted batch
      (⟨cache, out.alerted⟩, out.attempts)

/-- Read-path dedup key (index.js line 245): `` `${tx.chain}:${tx.txHash}` ``
— direct interpolation, no fallback chain. -/
def readKey (tx : Transaction) : String :=
  tx.chain ++ ":" ++ jsTemplate tx.txHash

/-- Comparator relation of the read-path sort (index.js line 251):
`(a, b) => new Date(b.timestamp) - new Date(a.timestamp)` — `a` precedes
`b` when `a`'s instant is at least `b`'s (timestamp descending). -/
def tsGe (a b : Transaction) : Prop := b.timestamp ≤ a.timestamp

instance : DecidableRel tsGe := fun a b =>
  inferInstanceAs (Decidable (b.timestamp ≤ a.timestamp))

instance : IsTotal Transaction tsGe :=
  ⟨fun a b => (le_total b.timestamp a.timestamp).elim Or.inl Or.inr⟩

instance : IsTrans Transaction tsGe :=
  ⟨fun _ _ _ hab hbc => le_trans hbc hab⟩

/-- `GET /transactions` handler body (index.js lines 236-253): flatten all
slots, filter by chain when the query parameter is truthy, dedup by
`chain:txHash`, sort by timestamp descending. -/
def listTransactions (chainFilter : Option String) (cache : Cache) :
    List Transaction :=
  let allTxs := cacheValues cache
  let filtered :=
    if jsTruthyS chainFilter then
      allTxs.filter fun tx => decide (tx.chain = chainFilter.getD "")
    else allTxs
  (dedupOn readKey filtered []).insertionSort tsGe

/-! Concrete sample data used by witnesses and counterexamples. -/

/-- Sample transaction with a native id. -/
def tx0 : Transaction := ⟨"ETH", 100, none, none, 0, some "h1"⟩

/-- Sample transaction, amount 49.99 (as an exact rational). -/
def tx4999 : Transaction := ⟨"ETH", mkRat 4999 100, none, none, 0, some "h1"⟩

/-- Sample transaction, amount 50. -/
def tx50 : Transaction := ⟨"ETH", 50, none, none, 0, some "h1"⟩

/-- Sample transaction lacking a native id. -/
def txNoId1 : Transaction := ⟨"ETH", 100, none, none, 0, none⟩

/-- Second, different sample transaction lacking a native id. -/
def txNoId2 : Transaction := ⟨"ETH", 200, some "a", none, 5, none⟩

/-- Sample subscriber with threshold 50. -/
def sub50 : Subscriber := ⟨"a@b.co", 50⟩

/-! Helper lemmas about the dispatcher loop. -/

theorem processLoop_suppressed (subs : List Subscriber)
    (sendOk : Subscriber → Transaction → Bool) (chain k : String) :
    ∀ (txs : List Transaction) (alerted : List String), k ∈ alerted →
      (∀ p ∈ (processLoop subs sendOk chain txs alerted).attempts, p.2 ≠ k) ∧
      k ∈ (processLoop subs sendOk chain txs alerted).alerted := by
  intro txs
  induction txs with
  | nil => intro alerted hk; exact ⟨by simp [processLoop], hk⟩
  | cons tx txs ih =>
    intro alerted hk
    by_cases hmem : txKey chain tx ∈ alerted
    · have h := ih alerted hk
      simp only [processLoop, processTx, if_pos hmem]
      simpa using h
    · have hne : txKey chain tx ≠ k := fun h => hmem (h ▸ hk)
      have h := ih (txKey chain tx :: alerted) (List.mem_cons_of_mem _ hk)
      simp only [processLoop, processTx, if_neg hmem]
      refine ⟨?_, h.2⟩
      intro p hp
      rcases List.mem_append.mp hp with h1 | h2
      · rcases List.mem_map.mp h1 with ⟨s, _, rfl⟩
        exact hne
      · exact h.1 p h2

theorem processLoop_alerted_mono (subs : List Subscriber)
    (sendOk : Subscriber → Transaction → Bool) (chain : String) :
    ∀ (txs : List Transaction) (alerted : List String),
      alerted ⊆ (processLoop subs sendOk chain txs alerted).alerted := by
  intro txs
  induction txs with
  | nil => intro alerted; simp [processLoop]
  | cons tx txs ih =>
    intro alerted
    by_cases hmem : txKey chain tx ∈ alerted
    · simpa only [processLoop, processTx, if_pos hmem] using ih alerted
    · simp only [processLoop, processTx, if_neg hmem]
      exact fun x hx =>
        ih (txKey chain tx :: alerted) (List.mem_cons_of_mem _ hx)

theorem processLoop_key_mem (subs : List Subscriber)
    (sendOk : Subscriber → Transaction → Bool) (chain : String) :
    ∀ (txs : List Transaction) (alerted : List String), ∀ tx ∈ txs,
      txKey chain tx ∈ (processLoop subs sendOk chain txs alerted).alerted := by
  intro txs
  induction txs with
  | nil => intro alerted tx htx; cases htx
  | cons hd txs ih =>
    intro alerted tx htx
    rcases List.mem_cons.mp htx with rfl | htl
    · by_cases hmem : txKey chain tx ∈ alerted
      · simp only [processLoop, processTx, if_pos hmem]
        exact processLoop_alerted_mono subs sendOk chain txs alerted hmem
      · simp only [processLoop, processTx, if_neg hmem]
        exact processLoop_alerted_mono subs sendOk chain txs _
          (List.mem_cons_self _ _)
    · by_cases hmem : txKey chain hd ∈ alerted
      · simp only [processLoop, processTx, if_pos hmem]
        exact ih alerted tx htl
      · simp only [processLoop, processTx, if_neg hmem]
        exact ih _ tx htl

theorem processLoop_sendOk_irrelevant (subs : List Subscriber)
    (f g : Subscriber → Transaction → Bool) (chain : String) :
    ∀ (txs : List Transaction) (alerted : List String),
      (processLoop subs f chain txs alerted).attempts
        = (processLoop subs g chain txs alerted).attempts ∧
      (processLoop subs f chain txs alerted).alerted
        = (processLoop subs g chain txs alerted).alerted := by
  intro txs
  induction txs with
  | nil => intro alerted; exact ⟨rfl, rfl⟩
  | cons tx txs ih =>
    intro alerted
    by_cases hmem : txKey chain tx ∈ alerted
    · simp only [processLoop, processTx, if_pos hmem]
      simpa using ih alerted
    · simp only [processLoop, processTx, if_neg hmem]
      have h := ih (txKey chain tx :: alerted)
      exact ⟨by rw [h.1], h.2⟩

theorem processLoop_empty_subs (sendOk : Subscriber → Transaction → Bool)
    (chain : String) :
    ∀ (txs : List Transaction) (alerted : List String),
      (processLoop [] sendOk chain txs alerted).attempts = [] ∧
      (processLoop [] sendOk chain txs alerted).delivered = [] := by
  intro txs
  induction txs with
  | nil => intro alerted; exact ⟨rfl, rfl⟩
  | cons tx txs ih =>
    intro alerted
    by_cases hmem : txKey chain tx ∈ alerted
    · simp only [processLoop, processTx, if_pos hmem]
      simpa using ih alerted
    · simp only [processLoop, processTx, if_neg hmem]
      have h := ih (txKey chain tx :: alerted)
      simp [List.filter, h.1, h.2]

theorem processLoop_count_mem (subs : List Subscriber)
    (sendOk : Subscriber → Transaction → Bool) (chain : String) :
    ∀ (txs : List Transaction) (alerted : List String) (k : String),
      k ∈ alerted →
      (processLoop subs sendOk chain txs alerted).alerted.count k
        = alerted.count k := by
  intro txs
  induction txs with
  | nil => intro alerted k _; rfl
  | cons tx txs ih =>
    intro alerted k hk
    by_cases hmem : txKey chain tx ∈ alerted
    · simp only [processLoop, processTx, if_pos hmem]
      exact ih alerted k hk
    · have hne : txKey chain tx ≠ k := fun h => hmem (h ▸ hk)
      simp only [processLoop, processTx, if_neg hmem]
      rw [ih _ k (List.mem_cons_of_mem _ hk)]
      simp [List.count_cons, hne]

theorem processLoop_count_new (subs : List Subscriber)
    (sendOk : Subscriber → Transaction → Bool) (chain : String) :
    ∀ (txs : List Transaction) (alerted : List String) (k : String),
      k ∉ alerted →
      (processLoop subs sendOk chain txs alerted).alerted.count k
        = if txs.any (fun tx => decide (txKey chain tx = k)) then 1 else 0 := by
  intro txs
  induction txs with
  | nil =>
    intro alerted k hk
    simpa [processLoop] using List.count_eq_zero.mpr hk
  | cons tx txs ih =>
    intro alerted k hk
    by_cases hmem : txKey chain tx ∈ alerted
    · have hne : txKey chain tx ≠ k := fun h => hk (h ▸ hmem)
      simp only [processLoop, processTx, if_pos hmem]
      rw [ih alerted k hk]
      simp [List.any_cons, hne]
    · simp only [processLoop, processTx, if_neg hmem]
      by_cases hkey : txKey chain tx = k
      · subst hkey
        rw [processLoop_count_mem subs sendOk chain txs _ _
          (List.mem_cons_self _ _)]
        simp [List.count_cons, List.count_eq_zero.mpr hk, List.any_cons]
      · rw [ih (txKey chain tx :: alerted) k (by
          intro hc
          rcases List.mem_cons.mp hc with h | h
          · exact hkey h.symm
          · exact hk h)]
        simp [List.any_cons, hkey]

theorem processAndAlert_key_mem (storeResult : Except String (List Subscriber))
    (sendOk : Subscriber → Transaction → Bool) (chain : String)
    (alerted : List String) (txs : List Transaction) (tx : Transaction)
    (htx : tx ∈ txs) :
    txKey chain tx ∈ (processAndAlert storeResult sendOk chain alerted txs).alerted := by
  have hne : txs.isEmpty = false := by
    cases txs with
    | nil => cases htx
    | cons a l => rfl
  unfold processAndAlert
  rw [hne]
  simp only [Bool.false_eq_true, if_false]
  exact processLoop_key_mem _ sendOk chain txs alerted tx htx

/-! Claim theorems about the alert dispatcher. -/

/-- C1: for every transaction whose suppression key is already in the
suppression set, a `processAndAlert` call on a batch containing it performs
zero delivery attempts for it (no pair in the attempts list carries its
key), and the key stays in the set afterwards — so the suppression holds
until the set is cleared by the bulk reset. -/
theorem C1_suppressed_tx_no_delivery
    (storeResult : Except String (List Subscriber))
    (sendOk : Subscriber → Transaction → Bool) (chain : String)
    (alerted : List String) (txs : List Transaction) (tx : Transaction)
    (h : txKey chain tx ∈ alerted) :
    (∀ p ∈ (processAndAlert storeResult sendOk chain alerted txs).attempts,
        p.2 ≠ txKey chain tx) ∧
    txKey chain tx ∈ (processAndAlert storeResult sendOk chain alerted txs).alerted := by
  unfold processAndAlert
  by_cases he : txs.isEmpty
  · rw [he]
    exact ⟨by simp, h⟩
  · rw [Bool.not_eq_true] at he
    rw [he]
    simp only [Bool.false_eq_true, if_false]
    exact processLoop_suppressed _ sendOk chain _ txs alerted h

/-- Witness for C1 at concrete inputs. -/
theorem C1_suppressed_tx_no_delivery_witness :
    txKey "ETH" tx0 ∈ ["ETH:h1"] ∧
    (∀ p ∈ (processAndAlert (.ok [sub50]) (fun _ _ => true) "ETH" ["ETH:h1"]
        [tx0]).attempts, p.2 ≠ txKey "ETH" tx0) ∧
    txKey "ETH" tx0 ∈ (processAndAlert (.ok [sub50]) (fun _ _ => true) "ETH"
        ["ETH:h1"] [tx0]).alerted := by
  have h : txKey "ETH" tx0 ∈ ["ETH:h1"] := by decide
  exact ⟨h, C1_suppressed_tx_no_delivery (.ok [sub50]) (fun _ _ => true)
    "ETH" ["ETH:h1"] [tx0] tx0 h⟩

/-- Counterexample to C2 as stated: with the subscriber fetch failing, a
`processAndAlert` call on a non-empty batch does mutate state — the
transaction's suppression key is inserted, so the suppression set is not
"exactly as it was". (`getSubscribers` swallows the error and returns the
empty list; the dispatch is not aborted.) -/
theorem C2_counterexample :
    (processAndAlert (.error "store down") (fun _ _ => true) "ETH" []
        [tx0]).alerted ≠ [] := by
  decide

/-- C2 amended: on subscriber-fetch failure the dispatch proceeds with an
empty subscriber list — no delivery is attempted (and none succeeds), but
the suppression set is still mutated: every transaction of the batch has its
key inserted. -/
theorem C2_store_failure_no_delivery_but_marks (e : String)
    (sendOk : Subscriber → Transaction → Bool) (chain : String)
    (alerted : List String) (txs : List Transaction) :
    (processAndAlert (.error e) sendOk chain alerted txs).attempts = [] ∧
    (processAndAlert (.error e) sendOk chain alerted txs).delivered = [] ∧
    ∀ tx ∈ txs,
      txKey chain tx ∈ (processAndAlert (.error e) sendOk chain alerted txs).alerted := by
  refine ⟨?_, ?_, ?_⟩
  · unfold processAndAlert
    by_cases he : txs.isEmpty
    · rw [he]; rfl
    · rw [Bool.not_eq_true] at he
      rw [he]
      simp only [Bool.false_eq_true, if_false, getSubscribers]
      exact (processLoop_empty_subs sendOk chain txs alerted).1
  · unfold processAndAlert
    by_cases he : txs.isEmpty
    · rw [he]; rfl
    · rw [Bool.not_eq_true] at he
      rw [he]
      simp only [Bool.false_eq_true, if_false, getSubscribers]
      exact (processLoop_empty_subs sendOk chain txs alerted).2
  · exact fun tx htx => processAndAlert_key_mem (.error e) sendOk chain alerted txs tx htx

/-- Witness for the amended C2 at concrete inputs. -/
theorem C2_store_failure_witness :
    (processAndAlert (.error "store down") (fun _ _ => true) "ETH" []
        [tx0]).attempts = [] ∧
    txKey "ETH" tx0 ∈ (processAndAlert (.error "store down") (fun _ _ => true)
        "ETH" [] [tx0]).alerted := by
  have h := C2_store_failure_no_delivery_but_marks "store down"
    (fun _ _ => true) "ETH" [] [tx0]
  exact ⟨h.1, h.2.2 tx0 (List.mem_singleton.mpr rfl)⟩

/-- C4: for a non-suppressed transaction, the delivery attempts are exactly
one per subscriber whose threshold is numerically at most the transaction's
amount (`Number(tx.amount) >= Number(sub.threshold)`, boundary inclusive) —
stated both for the per-transaction step and for a processed batch. -/
theorem C4_threshold_match (subs : List Subscriber)
    (sendOk : Subscriber → Transaction → Bool) (chain : String)
    (alerted : List String) (tx : Transaction)
    (h : txKey chain tx ∉ alerted) :
    (processTx subs sendOk chain alerted tx).1
      = (subs.filter fun s => decide (s.threshold ≤ tx.amount)).map
          (fun s => (s.email, txKey chain tx)) ∧
    (processAndAlert (.ok subs) sendOk chain alerted [tx]).attempts
      = (subs.filter fun s => decide (s.threshold ≤ tx.amount)).map
          (fun s => (s.email, txKey chain tx)) := by
  constructor
  · simp [processTx, if_neg h]
  · simp [processAndAlert, processLoop, processTx, if_neg h, getSubscribers]

/-- Witness for C4: subscriber threshold 50 — amount 49.99 yields no
attempt; amount 50 yields exactly one attempt. -/
theorem C4_threshold_match_witness :
    txKey "ETH" tx4999 ∉ ([] : List String) ∧
    (processAndAlert (.ok [sub50]) (fun _ _ => true) "ETH" []
        [tx4999]).attempts = [] ∧
    (processAndAlert (.ok [sub50]) (fun _ _ => true) "ETH" []
        [tx50]).attempts = [("a@b.co", "ETH:h1")] := by
  refine ⟨by decide, ?_, ?_⟩
  · rw [(C4_threshold_match [sub50] (fun _ _ => true) "ETH" [] tx4999
      (by decide)).2]
    decide
  · rw [(C4_threshold_match [sub50] (fun _ _ => true) "ETH" [] tx50
      (by decide)).2]
    decide

/-- C5: delivery outcomes never influence the attempts made or the
suppression set (a per-subscriber failure is caught: remaining deliveries
still happen and the transaction is still marked); every transaction of a
processed batch ends with its key in the suppression set; and a key not
previously suppressed is inserted exactly once, regardless of how many
subscribers matched (including zero). -/
theorem C5_mark_once_and_failure_isolated (subs : List Subscriber)
    (f g : Subscriber → Transaction → Bool) (chain : String)
    (alerted : List String) (txs : List Transaction) :
    (processAndAlert (.ok subs) f chain alerted txs).attempts
      = (processAndAlert (.ok subs) g chain alerted txs).attempts ∧
    (processAndAlert (.ok subs) f chain alerted txs).alerted
      = (processAndAlert (.ok subs) g chain alerted txs).alerted ∧
    (∀ tx ∈ txs,
      txKey chain tx ∈ (processAndAlert (.ok subs) f chain alerted txs).alerted) ∧
    (∀ tx ∈ txs, txKey chain tx ∉ alerted →
      (processAndAlert (.ok subs) f chain alerted txs).alerted.count
        (txKey chain tx) = 1) := by
  refine ⟨?_, ?_, ?_, ?_⟩
  · unfold processAndAlert
    by_cases he : txs.isEmpty
    · rw [he]; rfl
    · rw [Bool.not_eq_true] at he
      rw [he]
      simp only [Bool.false_eq_true, if_false]
      exact (processLoop_sendOk_irrelevant _ f g chain txs alerted).1
  · unfold processAndAlert
    by_cases he : txs.isEmpty
    · rw [he]; rfl
    · rw [Bool.not_eq_true] at he
      rw [he]
      simp only [Bool.false_eq_true, if_false]
      exact (processLoop_sendOk_irrelevant _ f g chain txs alerted).2
  · exact fun tx htx => processAndAlert_key_mem (.ok subs) f chain alerted txs tx htx
  · intro tx htx hnew
    have hne : txs.isEmpty = false := by
      cases txs with
      | nil => cases htx
      | cons a l => rfl
    unfold processAndAlert
    rw [hne]
    simp only [Bool.false_eq_true, if_false]
    rw [processLoop_count_new _ f chain txs alerted _ hnew]
    have hany : txs.any (fun t => decide (txKey chain t = txKey chain tx)) = true :=
      List.any_eq_true.mpr ⟨tx, htx, by simp⟩
    rw [hany]
    simp

/-- Witness for C5: a failing delivery channel produces the same attempts
and suppression set as a succeeding one, and the key is counted once. -/
theorem C5_mark_once_witness :
    (processAndAlert (.ok [sub50]) (fun _ _ => false) "ETH" [] [tx50]).attempts
      = (processAndAlert (.ok [sub50]) (fun _ _ => true) "ETH" [] [tx50]).attempts ∧
    (processAndAlert (.ok [sub50]) (fun _ _ => false) "ETH" []
        [tx50]).alerted.count (txKey "ETH" tx50) = 1 := by
  have h := C5_mark_once_and_failure_isolated [sub50] (fun _ _ => false)
    (fun _ _ => true) "ETH" [] [tx50]
  exact ⟨h.1, h.2.2.2 tx50 (List.mem_singleton.mpr rfl) (by decide)⟩

/-- C10: two transactions on the same chain that both lack a native id get
the same suppression key (`chain:undefined`), so after the first is
processed, a batch containing the second yields zero delivery attempts even
though it is a different transaction. -/
theorem C10_missing_id_shared_suppression
    (storeResult : Except String (List Subscriber))
    (sendOk : Subscriber → Transaction → Bool) (chain : String)
    (alerted : List String) (tx1 tx2 : Transaction)
    (h1 : tx1.txHash = none) (h2 : tx2.txHash = none) :
    txKey chain tx1 = txKey chain tx2 ∧
    (processAndAlert storeResult sendOk chain
      ((processAndAlert storeResult sendOk chain alerted [tx1]).alerted)
      [tx2]).attempts = [] := by
  have hkey : txKey chain tx1 = txKey chain tx2 := by
    simp [txKey, h1, h2, firstTruthyS, jsTruthyS, jsTemplate]
  refine ⟨hkey, ?_⟩
  have hmem : txKey chain tx2 ∈
      (processAndAlert storeResult sendOk chain alerted [tx1]).alerted := by
    rw [← hkey]
    exact processAndAlert_key_mem storeResult sendOk chain alerted [tx1] tx1
      (List.mem_singleton.mpr rfl)
  generalize hA : (processAndAlert storeResult sendOk chain alerted
    [tx1]).alerted = A at hmem ⊢
  simp [processAndAlert, processLoop, processTx, hmem]

/-- Witness for C10 at two concrete distinct id-less transactions. -/
theorem C10_missing_id_witness :
    txNoId1 ≠ txNoId2 ∧
    txKey "ETH" txNoId1 = txKey "ETH" txNoId2 ∧
    (processAndAlert (.ok [sub50]) (fun _ _ => true) "ETH"
      ((processAndAlert (.ok [sub50]) (fun _ _ => true) "ETH" []
        [txNoId1]).alerted) [txNoId2]).attempts = [] := by
  have h := C10_missing_id_shared_suppression (.ok [sub50]) (fun _ _ => true)
    "ETH" [] txNoId1 txNoId2 rfl rfl
  exact ⟨by decide, h.1, h.2⟩

/-! Claim theorems about the normalizers. -/

/-- Counterexample to C3 as stated: `normalize` is not total — on a raw
record whose nested timestamp is absent the mapping callback throws
(`new Date(undefined).toISOString()` raises a RangeError), and an absent
sender maps to `undefined`, not the empty string. -/
theorem C3_counterexample :
    normalizeEthOrBsc "ethereum" ⟨none, some "h", none, none, 100⟩ = none ∧
    normalizeBitcoin ⟨none, some "h", 100⟩ = none ∧
    (normalizeEthOrBsc "ethereum" ⟨some 0, some "h", none, none, 100⟩).map
      Transaction.sender ≠ some (some "") := by
  refine ⟨rfl, rfl, ?_⟩
  decide

/-- C3 amended: each normalizer succeeds exactly when the nested timestamp
is present (otherwise it throws via `toCST`); on success, absent
sender/receiver propagate as `undefined` for ETH/BSC and Solana — not the
empty string — while Bitcoin hard-codes the literal empty string for both;
an absent native id propagates as `undefined`. -/
theorem C3_partial_normalizers (network : String) (tx : RawTransfer)
    (o : RawOutput) :
    ((normalizeEthOrBsc network tx).isSome ↔ tx.blockTime.isSome) ∧
    (∀ t, normalizeEthOrBsc network tx = some t →
      t.sender = tx.sender ∧ t.receiver = tx.receiver ∧ t.txHash = tx.hash) ∧
    ((normalizeSolana tx).isSome ↔ tx.blockTime.isSome) ∧
    (∀ t, normalizeSolana tx = some t →
      t.sender = tx.sender ∧ t.receiver = tx.receiver ∧ t.txHash = tx.hash) ∧
    ((normalizeBitcoin o).isSome ↔ o.blockTime.isSome) ∧
    (∀ t, normalizeBitcoin o = some t →
      t.sender = some "" ∧ t.receiver = some "" ∧ t.txHash = o.hash) := by
  refine ⟨?_, ?_, ?_, ?_, ?_, ?_⟩
  · cases h : tx.blockTime <;> simp [normalizeEthOrBsc, toCST, h]
  · intro t ht
    cases h : tx.blockTime with
    | none => simp [normalizeEthOrBsc, toCST, h] at ht
    | some v =>
      simp only [normalizeEthOrBsc, toCST, h] at ht
      cases ht
      exact ⟨rfl, rfl, rfl⟩
  · cases h : tx.blockTime <;> simp [normalizeSolana, toCST, h]
  · intro t ht
    cases h : tx.blockTime with
    | none => simp [normalizeSolana, toCST, h] at ht
    | some v =>
      simp only [normalizeSolana, toCST, h] at ht
      cases ht
      exact ⟨rfl, rfl, rfl⟩
  · cases h : o.blockTime <;> simp [normalizeBitcoin, toCST, h]
  · intro t ht
    cases h : o.blockTime with
    | none => simp [normalizeBitcoin, toCST, h] at ht
    | some v =>
      simp only [normalizeBitcoin, toCST, h] at ht
      cases ht
      exact ⟨rfl, rfl, rfl⟩

/-- Witness for the amended C3 at concrete records. -/
theorem C3_partial_normalizers_witness :
    (normalizeEthOrBsc "ethereum" ⟨some 0, some "h", none, none, 100⟩).isSome ∧
    (normalizeEthOrBsc "ethereum" ⟨some 0, some "h", none, none, 100⟩).map
      Transaction.sender = some none := by
  have h := C3_partial_normalizers "ethereum" ⟨some 0, some "h", none, none, 100⟩
    ⟨some 0, some "h", 100⟩
  exact ⟨h.1.mpr rfl, by decide⟩

/-! Helper lemmas about the cache and the dedup passes. -/

theorem getSlot_setSlot_self :
    ∀ (c : Cache) (k : String) (v : List Transaction),
      getSlot (setSlot c k v) k = v
  | [], k, v => by simp [setSlot, getSlot]
  | (k0, v0) :: rest, k, v => by
    by_cases h : k0 = k
    · simp [setSlot, getSlot, h]
    · simp only [setSlot, if_neg h, getSlot, if_neg h]
      exact getSlot_setSlot_self rest k v

theorem getSlot_setSlot_ne :
    ∀ (c : Cache) (k k' : String) (v : List Transaction), k' ≠ k →
      getSlot (setSlot c k v) k' = getSlot c k'
  | [], k, k', v, h => by
    simp only [setSlot, getSlot]
    rw [if_neg (fun hc => h hc.symm)]
  | (k0, v0) :: rest, k, k', v, h => by
    by_cases h0 : k0 = k
    · subst h0
      simp only [setSlot, if_pos rfl, getSlot]
      rw [if_neg (fun hc => h hc.symm), if_neg (fun hc => h hc.symm)]
    · simp only [setSlot, if_neg h0, getSlot]
      by_cases h1 : k0 = k'
      · rw [if_pos h1, if_pos h1]
      · rw [if_neg h1, if_neg h1]
        exact getSlot_setSlot_ne rest k k' v h

theorem dedupOn_key_notin_seen {α β : Type} [DecidableEq β] (key : α → β) :
    ∀ (l : List α) (seen : List β) (x : α),
      x ∈ dedupOn key l seen → key x ∉ seen
  | [], _, x, hx => absurd hx (List.not_mem_nil x)
  | a :: l, seen, x, hx => by
    by_cases h : key a ∈ seen
    · simp only [dedupOn, if_pos h] at hx
      exact dedupOn_key_notin_seen key l seen x hx
    · simp only [dedupOn, if_neg h] at hx
      rcases List.mem_cons.mp hx with rfl | hx'
      · exact h
      · have h2 := dedupOn_key_notin_seen key l (key a :: seen) x hx'
        exact fun hc => h2 (List.mem_cons_of_mem _ hc)

theorem dedupOn_pairwise {α β : Type} [DecidableEq β] (key : α → β) :
    ∀ (l : List α) (seen : List β),
      (dedupOn key l seen).Pairwise (fun a b => key a ≠ key b)
  | [], _ => List.Pairwise.nil
  | a :: l, seen => by
    by_cases h : key a ∈ seen
    · simp only [dedupOn, if_pos h]
      exact dedupOn_pairwise key l seen
    · simp only [dedupOn, if_neg h]
      refine List.Pairwise.cons ?_ (dedupOn_pairwise key l _)
      intro b hb
      have h2 := dedupOn_key_notin_seen key l (key a :: seen) b hb
      exact fun hc => h2 (by rw [← hc]; exact List.mem_cons_self _ _)

theorem dedupOn_sublist {α β : Type} [DecidableEq β] (key : α → β) :
    ∀ (l : List α) (seen : List β), List.Sublist (dedupOn key l seen) l
  | [], _ => List.Sublist.slnil
  | a :: l, seen => by
    by_cases h : key a ∈ seen
    · simp only [dedupOn, if_pos h]
      exact (dedupOn_sublist key l seen).cons a
    · simp only [dedupOn, if_neg h]
      exact (dedupOn_sublist key l _).cons₂ a

theorem dedupOn_eq_self {α β : Type} [DecidableEq β] (key : α → β) :
    ∀ (l : List α) (seen : List β), (∀ x ∈ l, key x ∉ seen) →
      l.Pairwise (fun a b => key a ≠ key b) → dedupOn key l seen = l
  | [], _, _, _ => rfl
  | a :: l, seen, hseen, hp => by
    have h : key a ∉ seen := hseen a (List.mem_cons_self _ _)
    simp only [dedupOn, if_neg h]
    congr 1
    refine dedupOn_eq_self key l (key a :: seen) ?_ hp.of_cons
    intro x hx hc
    rcases List.mem_cons.mp hc with h1 | h2
    · exact (List.rel_of_pairwise_cons hp hx) h1.symm
    · exact hseen x (List.mem_cons_of_mem _ hx) h2

theorem dedupOn_exists_key {α β : Type} [DecidableEq β] (key : α → β) :
    ∀ (l : List α) (seen : List β) (x : α), x ∈ l → key x ∉ seen →
      ∃ y, y ∈ dedupOn key l seen ∧ key y = key x
  | [], _, x, hx, _ => absurd hx (List.not_mem_nil x)
  | a :: l, seen, x, hx, hseen => by
    by_cases h : key a ∈ seen
    · simp only [dedupOn, if_pos h]
      rcases List.mem_cons.mp hx with rfl | hx'
      · exact absurd h hseen
      · exact dedupOn_exists_key key l seen x hx' hseen
    · simp only [dedupOn, if_neg h]
      by_cases hk : key x = key a
      · exact ⟨a, List.mem_cons_self _ _, hk.symm⟩
      · rcases List.mem_cons.mp hx with rfl | hx'
        · exact absurd rfl hk
        · have hxs : key x ∉ key a :: seen := by
            intro hc
            rcases List.mem_cons.mp hc with h1 | h2
            exacts [hk h1, hseen h2]
          rcases dedupOn_exists_key key l (key a :: seen) x hx' hxs with ⟨y, hy, hkey⟩
          exact ⟨y, List.mem_cons_of_mem _ hy, hkey⟩

theorem filterAndDedupBtc_eq_dedupOn (m : Rat) :
    ∀ (l : List RawOutput) (seen : List (Option String)),
      filterAndDedupBtc m l seen
        = dedupOn RawOutput.hash (l.filter fun o => decide (m < o.value)) seen
  | [], _ => rfl
  | o :: os, seen => by
    by_cases hv : m < o.value
    · rw [List.filter_cons_of_pos (by simpa using hv)]
      by_cases hh : o.hash ∈ seen
      · simp only [filterAndDedupBtc, if_pos hv, if_pos hh, dedupOn]
        exact filterAndDedupBtc_eq_dedupOn m os seen
      · simp only [filterAndDedupBtc, if_pos hv, if_neg hh, dedupOn]
        rw [filterAndDedupBtc_eq_dedupOn m os (o.hash :: seen)]
    · rw [List.filter_cons_of_neg (by simpa using hv)]
      simp only [filterAndDedupBtc, if_neg hv]
      exact filterAndDedupBtc_eq_dedupOn m os seen

theorem normalizeAll_forall₂ {α : Type} (f : α → Option Transaction) :
    ∀ (l : List α) (ts : List Transaction), normalizeAll f l = some ts →
      List.Forall₂ (fun x t => f x = some t) l ts
  | [], ts, h => by
    simp only [normalizeAll, Option.some.injEq] at h
    rw [← h]
    exact List.Forall₂.nil
  | x :: xs, ts, h => by
    simp only [normalizeAll] at h
    cases hx : f x with
    | none => rw [hx] at h; cases h
    | some t =>
      rw [hx] at h
      cases hxs : normalizeAll f xs with
      | none => rw [hxs] at h; cases h
      | some rest =>
        rw [hxs] at h
        simp only [Option.some.injEq] at h
        rw [← h]
        exact List.Forall₂.cons hx (normalizeAll_forall₂ f xs rest hxs)

theorem forall₂_exists_left {α β : Type} {R : α → β → Prop} :
    ∀ {l : List α} {l' : List β}, List.Forall₂ R l l' →
      ∀ b ∈ l', ∃ a ∈ l, R a b := by
  intro l l' h
  induction h with
  | nil => intro b hb; cases hb
  | cons hx _ ih =>
    intro b hb
    rcases List.mem_cons.mp hb with rfl | hb'
    · exact ⟨_, List.mem_cons_self _ _, hx⟩
    · rcases ih b hb' with ⟨a, ha, hr⟩
      exact ⟨a, List.mem_cons_of_mem _ ha, hr⟩

theorem normalizeAll_pairwise_hash {α : Type} (f : α → Option Transaction)
    (k : α → Option String) (hf : ∀ x t, f x = some t → t.txHash = k x)
    (l : List α) (ts : List Transaction) (h : normalizeAll f l = some ts)
    (hp : l.Pairwise fun a b => k a ≠ k b) :
    ts.Pairwise fun a b => a.txHash ≠ b.txHash := by
  have h2 := normalizeAll_forall₂ f l ts h
  clear h
  induction h2 with
  | nil => exact List.Pairwise.nil
  | cons hx hrest ih =>
    rcases List.pairwise_cons.mp hp with ⟨hhead, htail⟩
    refine List.Pairwise.cons ?_ (ih htail)
    intro b hb
    rcases forall₂_exists_left hrest b hb with ⟨a, ha, hfa⟩
    rw [hf _ _ hx, hf _ _ hfa]
    exact hhead a ha

/-! Claim theorems about the poll cycles and the cache. -/

/-- C8: a failed fetch (rejected promise) or a malformed non-JSON body
(rejected `res.json()`) aborts the cycle before any mutation: for all three
polling functions the poller state — the chain's cache slot and the
suppression set — is returned unchanged and no delivery attempt is made. -/
theorem C8_fetch_failure_aborts_cycle (network e : String)
    (storeResult : Except String (List Subscriber))
    (sendOk : Subscriber → Transaction → Bool) (st : PollerState) :
    fetchEthOrBscCycle network storeResult sendOk (.fetchError e) st = (st, []) ∧
    fetchEthOrBscCycle network storeResult sendOk (.parseError e) st = (st, []) ∧
    fetchSolanaCycle storeResult sendOk (.fetchError e) st = (st, []) ∧
    fetchSolanaCycle storeResult sendOk (.parseError e) st = (st, []) ∧
    fetchBitcoinCycle storeResult sendOk (.fetchError e) st = (st, []) ∧
    fetchBitcoinCycle storeResult sendOk (.parseError e) st = (st, []) :=
  ⟨rfl, rfl, rfl, rfl, rfl, rfl⟩

/-- C9: a poll cycle writes only its own chain's cache slot (keyed
`network.toUpperCase()` for ETH/BSC, "SOL" for Solana, "BTC" for Bitcoin);
every other slot reads the same before and after, whatever the fetch
outcome. -/
theorem C9_cycle_frames_other_slots (network : String)
    (storeResult : Except String (List Subscriber))
    (sendOk : Subscriber → Transaction → Bool)
    (resp : FetchOutcome (List RawTransfer))
    (respB : FetchOutcome (List RawOutput)) (st : PollerState) (k : String) :
    (k ≠ jsToUpper network →
      getSlot (fetchEthOrBscCycle network storeResult sendOk resp st).1.cache k
        = getSlot st.cache k) ∧
    (k ≠ "SOL" →
      getSlot (fetchSolanaCycle storeResult sendOk resp st).1.cache k
        = getSlot st.cache k) ∧
    (k ≠ "BTC" →
      getSlot (fetchBitcoinCycle storeResult sendOk respB st).1.cache k
        = getSlot st.cache k) := by
  refine ⟨?_, ?_, ?_⟩
  · intro hk
    cases resp with
    | fetchError e => rfl
    | parseError e => rfl
    | ok body =>
      simp only [fetchEthOrBscCycle]
      cases hn : normalizeAll (normalizeEthOrBsc network)
          (dedupOn RawTransfer.hash (body.getD []) []) with
      | none => rfl
      | some batch => exact getSlot_setSlot_ne st.cache _ k batch hk
  · intro hk
    cases resp with
    | fetchError e => rfl
    | parseError e => rfl
    | ok body =>
      simp only [fetchSolanaCycle]
      cases hn : normalizeAll normalizeSolana
          (dedupOn RawTransfer.hash (body.getD []) []) with
      | none => rfl
      | some batch => exact getSlot_setSlot_ne st.cache _ k batch hk
  · intro hk
    cases respB with
    | fetchError e => rfl
    | parseError e => rfl
    | ok body =>
      simp only [fetchBitcoinCycle]
      cases hn : normalizeAll normalizeBitcoin
          (filterAndDedupBtc 100 (body.getD []) []) with
      | none => rfl
      | some batch => exact getSlot_setSlot_ne st.cache _ k batch hk

/-- Witness for C9: an ethereum cycle leaves the "ETH" slot (and any slot
other than "ETHEREUM") untouched. -/
theorem C9_cycle_frames_witness :
    getSlot (fetchEthOrBscCycle "ethereum" (.ok [sub50]) (fun _ _ => true)
        (.ok (some [⟨some 0, some "h", none, none, 100⟩]))
        ⟨[("ETH", [tx0])], []⟩).1.cache "ETH"
      = getSlot (⟨[("ETH", [tx0])], []⟩ : PollerState).cache "ETH" :=
  (C9_cycle_frames_other_slots "ethereum" (.ok [sub50]) (fun _ _ => true)
    (.ok (some [⟨some 0, some "h", none, none, 100⟩]))
    (.fetchError "x") ⟨[("ETH", [tx0])], []⟩ "ETH").1 (by decide)

/-- C6: when a poll cycle completes its replacement (fetch parsed and the
normalizing map did not throw), the written slot equals the deduplicated
normalized batch, the per-batch dedup keeps a subsequence of the raw records
(first-seen per native id), and the slot contains no two entries with equal
`(chain, nativeId)` — shown for the ETH/BSC path and the Bitcoin path. -/
theorem C6_slot_nodup_after_replace (network : String)
    (storeResult storeResultB : Except String (List Subscriber))
    (sendOk : Subscriber → Transaction → Bool)
    (body : Option (List RawTransfer)) (bodyB : Option (List RawOutput))
    (st stB : PollerState) (batch batchB : List Transaction)
    (h : normalizeAll (normalizeEthOrBsc network)
      (dedupOn RawTransfer.hash (body.getD []) []) = some batch)
    (hB : normalizeAll normalizeBitcoin
      (filterAndDedupBtc 100 (bodyB.getD []) []) = some batchB) :
    getSlot (fetchEthOrBscCycle network storeResult sendOk (.ok body) st).1.cache
        (jsToUpper network) = batch ∧
    List.Sublist (dedupOn RawTransfer.hash (body.getD []) []) (body.getD []) ∧
    batch.Pairwise (fun a b => ¬(a.chain = b.chain ∧ a.txHash = b.txHash)) ∧
    getSlot (fetchBitcoinCycle storeResultB sendOk (.ok bodyB) stB).1.cache
        "BTC" = batchB ∧
    batchB.Pairwise (fun a b => ¬(a.chain = b.chain ∧ a.txHash = b.txHash)) := by
  have hpair : batch.Pairwise fun a b => a.txHash ≠ b.txHash :=
    normalizeAll_pairwise_hash (normalizeEthOrBsc network) RawTransfer.hash
      (by
        intro x t ht
        cases hb : x.blockTime with
        | none => simp [normalizeEthOrBsc, toCST, hb] at ht
        | some v =>
          simp only [normalizeEthOrBsc, toCST, hb] at ht
          cases ht
          rfl)
      _ batch h (dedupOn_pairwise RawTransfer.hash _ [])
  have hpairB : batchB.Pairwise fun a b => a.txHash ≠ b.txHash := by
    rw [filterAndDedupBtc_eq_dedupOn] at hB
    exact normalizeAll_pairwise_hash normalizeBitcoin RawOutput.hash
      (by
        intro x t ht
        cases hb : x.blockTime with
        | none => simp [normalizeBitcoin, toCST, hb] at ht
        | some v =>
          simp only [normalizeBitcoin, toCST, hb] at ht
          cases ht
          rfl)
      _ batchB hB (dedupOn_pairwise RawOutput.hash _ [])
  refine ⟨?_, dedupOn_sublist RawTransfer.hash _ [], ?_, ?_, ?_⟩
  · simp only [fetchEthOrBscCycle]
    rw [h]
    exact getSlot_setSlot_self st.cache (jsToUpper network) batch
  · exact hpair.imp fun hne hand => hne hand.2
  · simp only [fetchBitcoinCycle]
    rw [hB]
    exact getSlot_setSlot_self stB.cache "BTC" batchB
  · exact hpairB.imp fun hne hand => hne hand.2

/-- Witness for C6: two raw records with the same native id and different
other fields collapse to one cache entry. -/
theorem C6_slot_nodup_witness :
    getSlot (fetchEthOrBscCycle "ethereum" (.ok [sub50]) (fun _ _ => true)
        (.ok (some [⟨some 0, some "h", none, none, 100⟩,
                    ⟨some 5, some "h", some "x", none, 2⟩]))
        ⟨[], []⟩).1.cache (jsToUpper "ethereum")
      = [⟨"ETHEREUM", 100, none, none, -21600000, some "h"⟩] :=
  (C6_slot_nodup_after_replace "ethereum" (.ok [sub50]) (.ok [sub50])
    (fun _ _ => true)
    (some [⟨some 0, some "h", none, none, 100⟩,
           ⟨some 5, some "h", some "x", none, 2⟩])
    (some []) ⟨[], []⟩ ⟨[], []⟩
    [⟨"ETHEREUM", 100, none, none, -21600000, some "h"⟩] []
    (by decide) (by decide)).1

/-! Claim theorem about the read path. -/

theorem listTransactions_none_eq (cache : Cache) :
    listTransactions none cache
      = (dedupOn readKey (cacheValues cache) []).insertionSort tsGe := rfl

theorem listTransactions_some_eq (cache : Cache) (c : String) (hc : c ≠ "") :
    listTransactions (some c) cache
      = (dedupOn readKey
          ((cacheValues cache).filter fun tx => decide (tx.chain = c))
          []).insertionSort tsGe := by
  simp only [listTransactions, jsTruthyS, Option.getD]
  rw [if_pos (decide_eq_true hc)]

/-- C7: the read path returns entries sorted by timestamp descending and
deduplicated by `(chain, nativeId)` (shown via the rendered dedup key and
via the field pair); with a chain filter every returned entry belongs to
that chain and comes from the cache, and every cached entry of that chain is
represented by its key; without a filter, when the slots' entries have
pairwise-distinct keys (which replacement guarantees per slot), the result
is a permutation of the union of all chains' current slots. -/
theorem C7_read_path_characterized (cache : Cache) (c : String) (hc : c ≠ "") :
    (listTransactions none cache).Pairwise tsGe ∧
    (listTransactions (some c) cache).Pairwise tsGe ∧
    (listTransactions none cache).Pairwise
      (fun a b => readKey a ≠ readKey b) ∧
    (listTransactions (some c) cache).Pairwise
      (fun a b => ¬(a.chain = b.chain ∧ a.txHash = b.txHash)) ∧
    (∀ tx ∈ listTransactions (some c) cache,
      tx.chain = c ∧ tx ∈ cacheValues cache) ∧
    (∀ tx ∈ cacheValues cache, tx.chain = c →
      ∃ tx', tx' ∈ listTransactions (some c) cache ∧ readKey tx' = readKey tx) ∧
    ((cacheValues cache).Pairwise (fun a b => readKey a ≠ readKey b) →
      (listTransactions none cache).Perm (cacheValues cache)) := by
  have hsortN : (listTransactions none cache).Pairwise tsGe := by
    rw [listTransactions_none_eq]
    exact List.sorted_insertionSort tsGe _
  have hsortS : (listTransactions (some c) cache).Pairwise tsGe := by
    rw [listTransactions_some_eq cache c hc]
    exact List.sorted_insertionSort tsGe _
  have hkeyN : (listTransactions none cache).Pairwise
      (fun a b => readKey a ≠ readKey b) := by
    rw [listTransactions_none_eq]
    exact ((List.perm_insertionSort tsGe _).pairwise_iff (fun h hc => h hc.symm)).mpr
      (dedupOn_pairwise readKey _ [])
  have hkeyS : (listTransactions (some c) cache).Pairwise
      (fun a b => readKey a ≠ readKey b) := by
    rw [listTransactions_some_eq cache c hc]
    exact ((List.perm_insertionSort tsGe _).pairwise_iff (fun h hc => h hc.symm)).mpr
      (dedupOn_pairwise readKey _ [])
  refine ⟨hsortN, hsortS, hkeyN, ?_, ?_, ?_, ?_⟩
  · refine hkeyS.imp ?_
    intro a b hne hand
    exact hne (by simp [readKey, hand.1, hand.2])
  · intro tx htx
    rw [listTransactions_some_eq cache c hc] at htx
    rw [List.mem_insertionSort] at htx
    have htx2 := (dedupOn_sublist readKey _ []).subset htx
    rcases List.mem_filter.mp htx2 with ⟨hmem, hchain⟩
    exact ⟨of_decide_eq_true hchain, hmem⟩
  · intro tx htx hchain
    have hf : tx ∈ (cacheValues cache).filter fun t => decide (t.chain = c) :=
      List.mem_filter.mpr ⟨htx, decide_eq_true hchain⟩
    rcases dedupOn_exists_key readKey _ [] tx hf (List.not_mem_nil _)
      with ⟨y, hy, hkey⟩
    refine ⟨y, ?_, hkey⟩
    rw [listTransactions_some_eq cache c hc, List.mem_insertionSort]
    exact hy
  · intro hp
    rw [listTransactions_none_eq,
      dedupOn_eq_self readKey _ [] (fun x _ => List.not_mem_nil _) hp]
    exact List.perm_insertionSort tsGe _

/-- Sample cache for the read-path witness: two ETH entries and one BTC
entry, timestamps 0, 5 and 3. -/
def cacheW : Cache :=
  [("ETH", [tx0, ⟨"ETH", 1, none, none, 5, some "h2"⟩]),
   ("BTC", [⟨"BTC", 2, some "", some "", 3, some "h3"⟩])]

/-- Witness for C7 at a concrete cache: sortedness and the no-filter
permutation, with the distinct-keys hypothesis discharged by evaluation. -/
theorem C7_read_path_witness :
    ("ETH" : String) ≠ "" ∧
    (listTransactions none cacheW).Pairwise tsGe ∧
    (listTransactions none cacheW).Perm (cacheValues cacheW) := by
  have h := C7_read_path_characterized cacheW "ETH" (by decide)
  exact ⟨by decide, h.1, h.2.2.2.2.2.2 (by decide)⟩

end WhaleTracker
